import Mathlib

/-!
Verification of the hid2tcp relay (src/hid2tcp/hid2tcp.py) against its design
specification.  The relay bridges one USB HID device to several TCP clients:
a reader thread pushes length-prefixed frames into a pipe, and a single
select-driven loop accepts connections, runs a 4-byte authorization
handshake, fans device frames out to authorized clients, and forwards
authorized client data to the device.

The embedding below translates the relevant Python functions directly:
bytes are naturals (interpreted mod nothing: socket and pipe bytes are
always < 256, and `bytes([n])` is modelled with its range check), socket
handles are abstract naturals, and side effects (socket sends, device
writes, socket closes) are reified into an effect trace.
-/

/-- Configuration identity: vendor and product id, as parsed by
`int(config[...], 16)` in the source. -/
structure Config where
  vendor_id : Nat
  product_id : Nat
deriving DecidableEq, Repr

/-- One observable side effect of the relay loop:
`sendClient i d` is `self.clients[i].send(d)`,
`usbSend d` is `self.usb_interface.send(d)`,
`closeClient i` is `self.clients[i].close()`. -/
inductive Effect where
  | sendClient : Nat → List Nat → Effect
  | usbSend : List Nat → Effect
  | closeClient : Nat → Effect
deriving DecidableEq, Repr

/-- The relay loop's mutable session state (`Hid2Tcp.__init__`, lines
102-103): the list of client socket handles and the parallel list of
authorization flags. -/
structure RelayState where
  clients : List Nat
  authorized : List Bool
deriving DecidableEq, Repr

/-- Big-endian 16-bit decode exactly as the source computes it on line 193:
`(data[0]<<8)|data[1]`. -/
def be16 (hi lo : Nat) : Nat := (hi <<< 8) ||| lo

/-- Outcome of `client.recv(4096)` (line 179): the received bytes, where an
empty result means the peer closed the connection, or an OSError raised by
the call. -/
inductive RecvResult where
  | data : List Nat → RecvResult
  | err : RecvResult
deriving DecidableEq, Repr

/-- Translation of `Hid2Tcp.handle_client` (lines 174-206).  Index accesses
`self.clients[i]` and `self.authorized[i]` raise IndexError when out of
range, a raised OSError from `recv` propagates; both are `Except.error`.
Returns the new state, the boolean return value of the Python function
(False means the caller removes the session), and the effect trace. -/
def handle_client (cfg : Config) (st : RelayState) (i : Nat) (r : RecvResult) :
    Except String (RelayState × Bool × List Effect) :=
  if i < st.clients.length then
    match r with
    | .err => .error "OSError"
    | .data data =>
      if data.length = 0 then
        .ok (st, false, [])
      else if hi : i < st.authorized.length then
        if st.authorized.get ⟨i, hi⟩ then
          .ok (st, true, [.usbSend data])
        else if data.length = 4 ∧ be16 (data.getD 0 0) (data.getD 1 0) = cfg.vendor_id ∧
            be16 (data.getD 2 0) (data.getD 3 0) = cfg.product_id then
          .ok ({ st with authorized := st.authorized.set i true }, true,
               [.sendClient i data])
        else
          .ok (st, false, [.closeClient i])
      else .error "IndexError"
  else .error "IndexError"

/-- Lines 136-138 of `Hid2Tcp.run`: accepting a connection appends the new
socket handle and a fresh `False` authorization flag. -/
def acceptClient (st : RelayState) (c : Nat) : RelayState :=
  { clients := st.clients ++ [c], authorized := st.authorized ++ [false] }

/-- Lines 149-150 of `Hid2Tcp.run`: removing a session deletes the entry at
the same index from both lists. -/
def removeClient (st : RelayState) (i : Nat) : RelayState :=
  { clients := st.clients.eraseIdx i, authorized := st.authorized.eraseIdx i }

/-- The fan-out loop of `handle_pipein` (lines 168-172) over the index list
`is`, where `fails i` says whether `self.clients[i].send(data)` raises.
Returns the sends that completed before any raise and whether a raise
aborted the loop (the exception propagates out of `handle_pipein`). -/
def fanoutTrace (auth : List Bool) (data : List Nat) (fails : Nat → Bool) :
    List Nat → List Effect × Bool
  | [] => ([], false)
  | i :: is =>
    if auth.getD i false then
      if fails i then ([], true)
      else
        let rest := fanoutTrace auth data fails is
        (Effect.sendClient i data :: rest.1, rest.2)
    else fanoutTrace auth data fails is

/-- Fan-out of one payload to all authorized clients (lines 168-172) in the
normal case where no send raises. -/
def fanout (st : RelayState) (data : List Nat) : List Effect :=
  (fanoutTrace st.authorized data (fun _ => false) (List.range st.clients.length)).1

/-- Translation of `Hid2Tcp.handle_pipein` (lines 155-172), parameterized by
the bytes each `os.read` call actually returned: `lenRead` for
`os.read(self.pipein, 1)` and `payloadRead` for
`os.read(self.pipein, data_size)` — a pipe read may return fewer bytes than
requested.  The code checks only the length read (`len(data_size) != 1`
raises); the payload read is used as-is. -/
def handle_pipein (st : RelayState) (lenRead payloadRead : List Nat) :
    Except String (List Effect) :=
  if lenRead.length ≠ 1 then
    .error "Illegal size info received"
  else
    .ok (fanout st payloadRead)

/-- Model of `os.read(fd, n)` on a pipe whose buffer holds `stream`: it
returns up to `n` bytes and leaves the rest buffered. -/
def osRead (stream : List Nat) (n : Nat) : List Nat × List Nat :=
  (stream.take n, stream.drop n)

/-- The frame-extraction part of `handle_pipein` (lines 158-164) run against
a pipe buffer holding `stream`: read one length byte, then that many payload
bytes; returns the frame payload and the remaining buffer. -/
def channelRead (stream : List Nat) : Except String (List Nat × List Nat) :=
  let r1 := osRead stream 1
  if r1.1.length ≠ 1 then
    .error "Illegal size info received"
  else
    .ok (osRead r1.2 (r1.1.getD 0 0))

/-- `handle_pipein` with both reads taken from a pipe buffer `stream`:
returns the remaining buffer and the fan-out effects. -/
def handle_pipein_stream (st : RelayState) (stream : List Nat) :
    Except String (List Nat × List Effect) :=
  match channelRead stream with
  | .error e => .error e
  | .ok (data, rest) => .ok (rest, fanout st data)

/-- Model of Python `bytes([n])` (line 84): raises ValueError unless
`0 ≤ n < 256`. -/
def pyByte (n : Nat) : Except String Nat :=
  if n < 256 then .ok n else .error "bytes must be in range(0, 256)"

/-- Lines 84-86 of `UsbInterface.run`: write one length byte
`bytes([len(packet)])`, then the packet itself, to the pipe; the result is
the byte sequence appended to the pipe buffer. -/
def channelWrite (packet : List Nat) : Except String (List Nat) :=
  match pyByte packet.length with
  | .error e => .error e
  | .ok l => .ok (l :: packet)

/-- Pipe-buffer contents after the device reader has pushed each frame of
`frames` in turn. -/
def encodeFrames : List (List Nat) → Except String (List Nat)
  | [] => .ok []
  | f :: fs =>
    match channelWrite f, encodeFrames fs with
    | .ok s, .ok rest => .ok (s ++ rest)
    | .error e, _ => .error e
    | .ok _, .error e => .error e

/-- `n` successive executions of the pipe-ready branch of the main loop
(line 141-142), accumulating the fan-out effects. -/
def relayStream (st : RelayState) (stream : List Nat) :
    Nat → Except String (List Nat × List Effect)
  | 0 => .ok (stream, [])
  | n + 1 =>
    match handle_pipein_stream st stream with
    | .error e => .error e
    | .ok (rest, effs) =>
      match relayStream st rest n with
      | .error e => .error e
      | .ok (rest2, effs2) => .ok (rest2, effs ++ effs2)

/-- The payloads delivered to client index `c`, in order, in an effect
trace. -/
def sentTo (c : Nat) (effs : List Effect) : List (List Nat) :=
  effs.filterMap fun e =>
    match e with
    | .sendClient j d => if j = c then some d else none
    | _ => none

/-- One dispatch of the main loop (lines 133-152): a new connection
accepted, a pipe frame consumed (no session-state change), or a ready
client handled, with removal of the session when `handle_client` returns
False. -/
inductive LoopEvent where
  | accept : Nat → LoopEvent
  | pipein : List Nat → LoopEvent
  | clientMsg : Nat → RecvResult → LoopEvent
deriving DecidableEq, Repr

/-- The state transition of one main-loop dispatch; an exception raised
inside the loop body propagates (`Except.error`). -/
def stepOk (cfg : Config) (st : RelayState) : LoopEvent → Except String RelayState
  | .accept c => .ok (acceptClient st c)
  | .pipein _ => .ok st
  | .clientMsg i r =>
    match handle_client cfg st i r with
    | .error e => .error e
    | .ok (st1, keep, _) => .ok (if keep then st1 else removeClient st1 i)

/-- Iterated main-loop dispatches. -/
def runEvents (cfg : Config) (st : RelayState) : List LoopEvent → Except String RelayState
  | [] => .ok st
  | ev :: evs =>
    match stepOk cfg st ev with
    | .error e => .error e
    | .ok st1 => runEvents cfg st1 evs

/-- The effect trace of a `handle_client` call (empty when the call raised:
a raised exception aborts the loop before any further effect). -/
def effectsOf : Except String (RelayState × Bool × List Effect) → List Effect
  | .ok (_, _, effs) => effs
  | .error _ => []

/-- Well-formedness of an event relative to the set `used` of socket handles
the process has ever seen: an accepted handle is globally fresh (the OS
never hands out a socket object that aliases a live or previously seen
one within one trace of this model). -/
def wfEventU (used : List Nat) : LoopEvent → Bool
  | .accept c => !(used.contains c)
  | _ => true

/-- The seen-handle set after an event. -/
def usedAfter (used : List Nat) : LoopEvent → List Nat
  | .accept c => used ++ [c]
  | _ => used

/-- A trace is well formed when every accept along it brings a globally
fresh handle. -/
def wfTraceU (used : List Nat) : List LoopEvent → Bool
  | [] => true
  | ev :: evs => wfEventU used ev && wfTraceU (usedAfter used ev) evs

example : be16 0x12 0x34 = 0x1234 := by decide

example :
    handle_client ⟨0x1234, 0x5678⟩ ⟨[7], [false]⟩ 0 (.data [0x12, 0x34, 0x56, 0x78]) =
      .ok (⟨[7], [true]⟩, true, [.sendClient 0 [0x12, 0x34, 0x56, 0x78]]) := rfl

/-! ### Helper lemmas about lists -/

theorem getD_eq_get {α : Type} : ∀ (l : List α) (i : Nat) (d : α) (h : i < l.length),
    l.getD i d = l.get ⟨i, h⟩
  | _ :: _, 0, _, _ => rfl
  | _ :: l, i + 1, d, h => getD_eq_get l i d (Nat.lt_of_succ_lt_succ h)

theorem getD_set_self {α : Type} : ∀ (l : List α) (i : Nat) (a d : α), i < l.length →
    (l.set i a).getD i d = a
  | _ :: _, 0, _, _, _ => rfl
  | _ :: l, i + 1, a, d, h => getD_set_self l i a d (Nat.lt_of_succ_lt_succ h)

theorem take_append_self {α : Type} : ∀ (l r : List α), (l ++ r).take l.length = l
  | [], _ => rfl
  | a :: l, r => by simp [take_append_self l r]

theorem drop_append_self {α : Type} : ∀ (l r : List α), (l ++ r).drop l.length = r
  | [], _ => rfl
  | a :: l, r => by simp [drop_append_self l r]

/-! ### C10: the device reader's length byte -/

/-- C10: the channel write is only defined for packets of at most 255 bytes:
`bytes([len(packet)])` raises for any longer packet, so the reader neither
enforces nor truncates to the 255-byte bound — it fails outright. -/
theorem oversized_packet_write (packet : List Nat) :
    channelWrite packet =
      if packet.length < 256 then .ok (packet.length :: packet)
      else .error "bytes must be in range(0, 256)" := by
  unfold channelWrite pyByte
  by_cases h : packet.length < 256 <;> simp [h]

/-! ### C7: frame round-trip through the pipe -/

/-- C7: for every payload of length at most 255 (lengths 0 and 255 included),
writing it length-prefixed to the pipe and then reading one length byte and
that many payload bytes reconstructs exactly the original payload and leaves
the rest of the buffer untouched. -/
theorem frame_roundtrip (p rest : List Nat) (h : p.length ≤ 255) :
    channelWrite p = .ok (p.length :: p) ∧
      channelRead (p.length :: p ++ rest) = .ok (p, rest) := by
  constructor
  · unfold channelWrite pyByte
    simp [Nat.lt_succ_of_le h]
  · unfold channelRead osRead
    simp [take_append_self, drop_append_self]

theorem frame_roundtrip_witness :
    channelWrite [170, 187, 204] = .ok [3, 170, 187, 204] ∧
      channelRead [3, 170, 187, 204, 9] = .ok ([170, 187, 204], [9]) :=
  frame_roundtrip [170, 187, 204] [9] (by decide)

/-! ### C4: short reads on the frame channel -/

/-- C4 counterexample: the length byte announces 3 payload bytes but the
payload read returns zero bytes, yet `handle_pipein` raises nothing and
fans out the truncated (empty) payload. -/
theorem pipein_short_payload_cex :
    handle_pipein ⟨[5], [true]⟩ [3] [] = .ok [Effect.sendClient 0 []] := rfl

/-- C4 amended: only the 1-byte length read is validated — when it yields
zero bytes (or anything other than one byte) `handle_pipein` raises; the
subsequent payload read is not length-checked, and a short (even empty)
payload read proceeds with the truncated payload. -/
theorem pipein_read_check (st : RelayState) (lenRead payloadRead : List Nat)
    (_hshort : payloadRead.length ≤ lenRead.getD 0 0) :
    (lenRead.length ≠ 1 →
        handle_pipein st lenRead payloadRead = .error "Illegal size info received") ∧
    (lenRead.length = 1 →
        handle_pipein st lenRead payloadRead = .ok (fanout st payloadRead)) := by
  unfold handle_pipein
  constructor <;> intro h <;> simp [h]

theorem pipein_read_check_witness :
    (([] : List Nat).length ≠ 1 ∧
        handle_pipein ⟨[5], [true]⟩ [] [] = .error "Illegal size info received") ∧
      (([(3 : Nat)].length = 1 ∧
        handle_pipein ⟨[5], [true]⟩ [3] [] = .ok [Effect.sendClient 0 []])) :=
  ⟨⟨by decide, (pipein_read_check ⟨[5], [true]⟩ [] [] (by decide)).1 (by decide)⟩,
   ⟨by decide, (pipein_read_check ⟨[5], [true]⟩ [3] [] (by decide)).2 (by decide)⟩⟩

/-! ### C8: a failing send during fan-out -/

/-- C8 counterexample: three clients, all authorized; the send to client 1
raises.  Only client 0 received the frame, the loop aborted (flag true),
so client 2 never receives it — the error on client 1 does affect other
clients, contrary to the claim. -/
theorem fanout_error_cex :
    fanoutTrace [true, true, true] [170] (fun i => i == 1) (List.range 3) =
      ([Effect.sendClient 0 [170]], true) := by decide

/-- Decomposition of the loop's index list around a failing index. -/
theorem range_decomp : ∀ (n k : Nat), k < n →
    ∃ is2, List.range n = List.range k ++ k :: is2 := by
  intro n
  induction n with
  | zero => intro k hk; cases hk
  | succ n ih =>
    intro k hk
    rcases Nat.lt_or_ge k n with h | h
    · obtain ⟨is2, his⟩ := ih k h
      exact ⟨is2 ++ [n], by rw [List.range_succ, his]; simp⟩
    · have hkn : k = n := Nat.le_antisymm (Nat.lt_succ_iff.mp hk) h
      subst hkn
      exact ⟨[], by rw [List.range_succ]⟩

/-- Unfolding equation for the fan-out loop on a cons index list. -/
theorem fanoutTrace_cons (auth : List Bool) (data : List Nat) (fails : Nat → Bool)
    (i : Nat) (is : List Nat) :
    fanoutTrace auth data fails (i :: is) =
      if auth.getD i false then
        if fails i then ([], true)
        else (Effect.sendClient i data :: (fanoutTrace auth data fails is).1,
              (fanoutTrace auth data fails is).2)
      else fanoutTrace auth data fails is := rfl

/-- The fan-out loop when the send to index k raises, over an index list in
which k first occurs after `is1`: the authorized indices of `is1` receive
the payload, then the loop aborts. -/
theorem fanoutTrace_fail_split (auth : List Bool) (data : List Nat) (k : Nat)
    (hk : auth.getD k false = true) :
    ∀ is1 is2 : List Nat, k ∉ is1 →
      fanoutTrace auth data (fun i => i == k) (is1 ++ k :: is2) =
        ((is1.filter fun i => auth.getD i false).map fun i => Effect.sendClient i data,
          true) := by
  intro is1
  induction is1 with
  | nil =>
    intro is2 _
    rw [List.nil_append, fanoutTrace_cons, if_pos hk, if_pos (by simp)]
    simp
  | cons i is1 ih =>
    intro is2 hnotin
    have hik : i ≠ k := fun h => hnotin (by simp [h])
    have hrec := ih is2 (fun h => hnotin (List.mem_cons_of_mem i h))
    rw [List.cons_append, fanoutTrace_cons]
    by_cases hi : auth.getD i false
    · rw [if_pos hi, if_neg (by simp [hik]), hrec, List.filter_cons, if_pos hi,
        List.map_cons]
    · rw [if_neg hi, hrec, List.filter_cons, if_neg hi]

/-- C8 amended: when the send to one authorized client k raises during the
fan-out of a frame, the exception aborts the fan-out loop: exactly the
authorized clients with index below k received the frame, and every
authorized client after k does not (the raise propagates out of
`handle_pipein` into the main loop). -/
theorem fanout_error_amended (auth : List Bool) (data : List Nat) (k n : Nat)
    (hk : auth.getD k false = true) (hkn : k < n) :
    ∃ is2, List.range n = List.range k ++ k :: is2 ∧
      fanoutTrace auth data (fun i => i == k) (List.range n) =
        (((List.range k).filter fun i => auth.getD i false).map
            fun i => Effect.sendClient i data, true) := by
  obtain ⟨is2, his⟩ := range_decomp n k hkn
  refine ⟨is2, his, ?_⟩
  rw [his]
  exact fanoutTrace_fail_split auth data k hk (List.range k) is2 (by simp)

theorem fanout_error_amended_witness :
    ∃ is2, List.range 3 = List.range 1 ++ 1 :: is2 ∧
      fanoutTrace [true, true, true] [170] (fun i => i == 1) (List.range 3) =
        ([Effect.sendClient 0 [170]], true) :=
  fanout_error_amended [true, true, true] [170] 1 3 (by decide) (by decide)

/-! ### Evaluation lemmas for handle_client -/

theorem handle_client_closed (cfg : Config) (st : RelayState) (i : Nat)
    (hc : i < st.clients.length) :
    handle_client cfg st i (.data []) = .ok (st, false, []) := by
  simp [handle_client, hc]

theorem handle_client_err (cfg : Config) (st : RelayState) (i : Nat)
    (hc : i < st.clients.length) :
    handle_client cfg st i .err = .error "OSError" := by
  simp [handle_client, hc]

theorem handle_client_authorized (cfg : Config) (st : RelayState) (i : Nat)
    (data : List Nat) (hc : i < st.clients.length) (ha : i < st.authorized.length)
    (hflag : st.authorized.get ⟨i, ha⟩ = true) (hne : data ≠ []) :
    handle_client cfg st i (.data data) = .ok (st, true, [.usbSend data]) := by
  simp only [handle_client]
  rw [if_pos hc, if_neg (show ¬data.length = 0 by simpa using hne), dif_pos ha,
    if_pos hflag]

theorem handle_client_unauth (cfg : Config) (st : RelayState) (i : Nat)
    (data : List Nat) (hc : i < st.clients.length) (ha : i < st.authorized.length)
    (hflag : st.authorized.get ⟨i, ha⟩ = false) (hne : data ≠ []) :
    handle_client cfg st i (.data data) =
      if data.length = 4 ∧ be16 (data.getD 0 0) (data.getD 1 0) = cfg.vendor_id ∧
          be16 (data.getD 2 0) (data.getD 3 0) = cfg.product_id then
        .ok ({ st with authorized := st.authorized.set i true }, true,
             [.sendClient i data])
      else
        .ok (st, false, [.closeClient i]) := by
  simp only [handle_client]
  rw [if_pos hc, if_neg (show ¬data.length = 0 by simpa using hne), dif_pos ha,
    if_neg (show ¬st.authorized.get ⟨i, ha⟩ = true by rw [hflag]; decide)]

/-! ### C1: handshake correctness -/

/-- C1: for every message received from an in-range unauthorized session,
the authorized flag becomes true iff the big-endian 16-bit halves of a
4-byte message equal the configured vendor and product id, in which case
exactly those 4 bytes are echoed back; on any other message (wrong length
or wrong value) the connection is closed and nothing is sent back. -/
theorem handshake_correct (cfg : Config) (st : RelayState) (i : Nat)
    (data : List Nat) (hc : i < st.clients.length) (ha : i < st.authorized.length)
    (hflag : st.authorized.get ⟨i, ha⟩ = false) (hne : data ≠ []) :
    (handle_client cfg st i (.data data) =
      if data.length = 4 ∧ be16 (data.getD 0 0) (data.getD 1 0) = cfg.vendor_id ∧
          be16 (data.getD 2 0) (data.getD 3 0) = cfg.product_id then
        .ok ({ st with authorized := st.authorized.set i true }, true,
             [.sendClient i data])
      else
        .ok (st, false, [.closeClient i])) ∧
    (st.authorized.set i true).getD i false = true :=
  ⟨handle_client_unauth cfg st i data hc ha hflag hne,
   getD_set_self st.authorized i true false ha⟩

theorem handshake_correct_witness :
    handle_client ⟨0x1234, 0x5678⟩ ⟨[7], [false]⟩ 0 (.data [0x12, 0x34, 0x56, 0x78]) =
        .ok (⟨[7], [true]⟩, true, [.sendClient 0 [0x12, 0x34, 0x56, 0x78]]) ∧
      ([false].set 0 true).getD 0 false = true :=
  have h := handshake_correct ⟨0x1234, 0x5678⟩ ⟨[7], [false]⟩ 0 [0x12, 0x34, 0x56, 0x78]
    (by decide) (by decide) (by decide) (by decide)
  ⟨h.1.trans (if_pos (by decide)), h.2⟩

/-! ### C3: unauthorized data never reaches the device -/

/-- C3: whatever an unauthorized client sends, the device write path is
never invoked with it: the effect trace of `handle_client` for a session
whose flag is false contains no `usbSend`. -/
theorem unauthorized_isolation (cfg : Config) (st : RelayState) (i : Nat)
    (r : RecvResult) (hflag : st.authorized.getD i false = false) :
    ∀ d, Effect.usbSend d ∉ effectsOf (handle_client cfg st i r) := by
  intro d
  by_cases hc : i < st.clients.length
  · cases r with
    | err => rw [handle_client_err cfg st i hc]; simp [effectsOf]
    | data data =>
      rcases eq_or_ne data [] with hdata | hdata
      · subst hdata
        rw [handle_client_closed cfg st i hc]
        simp [effectsOf]
      · by_cases ha : i < st.authorized.length
        · have hget : st.authorized.get ⟨i, ha⟩ = false := by
            rw [← getD_eq_get st.authorized i false ha]; exact hflag
          rw [handle_client_unauth cfg st i data hc ha hget hdata]
          by_cases h4 : data.length = 4 ∧
              be16 (data.getD 0 0) (data.getD 1 0) = cfg.vendor_id ∧
              be16 (data.getD 2 0) (data.getD 3 0) = cfg.product_id
          · rw [if_pos h4]; simp [effectsOf]
          · rw [if_neg h4]; simp [effectsOf]
        · simp [handle_client, hc, ha, effectsOf, hdata]
  · simp [handle_client, hc, effectsOf]

theorem unauthorized_isolation_witness :
    ([false] : List Bool).getD 0 false = false ∧
      Effect.usbSend [222, 173, 190, 239] ∉
        effectsOf (handle_client ⟨0x1234, 0x5678⟩ ⟨[7], [false]⟩ 0
          (.data [222, 173, 190, 239])) :=
  ⟨by decide,
   unauthorized_isolation ⟨0x1234, 0x5678⟩ ⟨[7], [false]⟩ 0
     (.data [222, 173, 190, 239]) (by decide) [222, 173, 190, 239]⟩

/-! ### C5: session destruction -/

theorem get_not_mem_eraseIdx {α : Type} : ∀ (l : List α) (i : Nat) (h : i < l.length),
    l.Nodup → l.get ⟨i, h⟩ ∉ l.eraseIdx i
  | a :: l, 0, _, hn => (List.nodup_cons.mp hn).1
  | a :: l, i + 1, h, hn => by
    intro hmem
    rcases List.mem_cons.mp hmem with heq | hmem2
    · exact (List.nodup_cons.mp hn).1
        (heq ▸ List.get_mem l i (Nat.lt_of_succ_lt_succ h))
    · exact get_not_mem_eraseIdx l i (Nat.lt_of_succ_lt_succ h)
        (List.nodup_cons.mp hn).2 hmem2

/-- C5 counterexample: on the peer-close trigger (zero-byte read) the effect
trace is empty — no `close()` is invoked on the handle, contrary to the
claim; and on a read error the exception propagates out of `handle_client`
(so the session is neither closed nor removed). -/
theorem session_cleanup_cex :
    handle_client ⟨0x1234, 0x5678⟩ ⟨[5], [false]⟩ 0 (.data []) =
        .ok (⟨[5], [false]⟩, false, []) ∧
      handle_client ⟨0x1234, 0x5678⟩ ⟨[5], [false]⟩ 0 .err = .error "OSError" :=
  ⟨rfl, rfl⟩

/-- C5 amended: on a failed handshake the connection is closed and the main
loop removes the entry from both lists; on peer close (zero-byte read) the
entry is removed but no close is invoked on the handle; on a read error the
exception propagates out of the loop without closing or removing anything;
and a removed handle is no longer in the active set, so it is never read
from or written to again. -/
theorem session_cleanup_amended (cfg : Config) (st : RelayState) (i : Nat)
    (data : List Nat) (hc : i < st.clients.length) (ha : i < st.authorized.length)
    (hflag : st.authorized.get ⟨i, ha⟩ = false) (hnodup : st.clients.Nodup)
    (hne : data ≠ [])
    (hbad : ¬(data.length = 4 ∧ be16 (data.getD 0 0) (data.getD 1 0) = cfg.vendor_id ∧
      be16 (data.getD 2 0) (data.getD 3 0) = cfg.product_id)) :
    handle_client cfg st i (.data data) = .ok (st, false, [.closeClient i]) ∧
    handle_client cfg st i (.data []) = .ok (st, false, []) ∧
    handle_client cfg st i .err = .error "OSError" ∧
    stepOk cfg st (.clientMsg i (.data data)) = .ok (removeClient st i) ∧
    st.clients.get ⟨i, hc⟩ ∉ (removeClient st i).clients := by
  have h1 : handle_client cfg st i (.data data) = .ok (st, false, [.closeClient i]) :=
    (handle_client_unauth cfg st i data hc ha hflag hne).trans (if_neg hbad)
  refine ⟨h1, handle_client_closed cfg st i hc, handle_client_err cfg st i hc, ?_, ?_⟩
  · simp only [stepOk]
    rw [h1]
    simp
  · exact get_not_mem_eraseIdx st.clients i hc hnodup

theorem session_cleanup_amended_witness :
    handle_client ⟨0x1234, 0x5678⟩ ⟨[5], [false]⟩ 0 (.data [0, 0, 0, 0]) =
        .ok (⟨[5], [false]⟩, false, [.closeClient 0]) ∧
      handle_client ⟨0x1234, 0x5678⟩ ⟨[5], [false]⟩ 0 (.data []) =
        .ok (⟨[5], [false]⟩, false, []) ∧
      handle_client ⟨0x1234, 0x5678⟩ ⟨[5], [false]⟩ 0 .err = .error "OSError" ∧
      stepOk ⟨0x1234, 0x5678⟩ ⟨[5], [false]⟩ (.clientMsg 0 (.data [0, 0, 0, 0])) =
        .ok (removeClient ⟨[5], [false]⟩ 0) ∧
      ([5] : List Nat).get ⟨0, by decide⟩ ∉ (removeClient ⟨[5], [false]⟩ 0).clients :=
  session_cleanup_amended ⟨0x1234, 0x5678⟩ ⟨[5], [false]⟩ 0 [0, 0, 0, 0]
    (by decide) (by decide) (by decide) (by decide) (by decide) (by decide)

/-! ### C2: frame fan-out completeness -/

/-- When no send raises, the fan-out loop delivers the payload to exactly
the authorized indices, in index (= accept) order. -/
theorem fanoutTrace_noFail (auth : List Bool) (data : List Nat) :
    ∀ is : List Nat, fanoutTrace auth data (fun _ => false) is =
      ((is.filter fun i => auth.getD i false).map fun i => Effect.sendClient i data,
        false) := by
  intro is
  induction is with
  | nil => rfl
  | cons i is ih =>
    rw [fanoutTrace_cons]
    by_cases hi : auth.getD i false
    · rw [if_pos hi, if_neg (by simp), ih, List.filter_cons, if_pos hi, List.map_cons]
    · rw [if_neg hi, ih, List.filter_cons, if_neg hi]

theorem channelWrite_ok (p u : List Nat) (h : channelWrite p = .ok u) :
    u = p.length :: p ∧ p.length < 256 := by
  unfold channelWrite pyByte at h
  by_cases hl : p.length < 256
  · simp [hl] at h
    exact ⟨h.symm, hl⟩
  · simp [hl] at h

/-- Consuming one complete frame from the front of the pipe buffer. -/
theorem handle_pipein_stream_frame (st : RelayState) (f rest : List Nat) :
    handle_pipein_stream st ((f.length :: f) ++ rest) = .ok (rest, fanout st f) := by
  unfold handle_pipein_stream channelRead osRead
  simp [take_append_self, drop_append_self]

/-- Relaying an encoded frame sequence consumes the whole buffer and emits
the fan-out of every frame in order. -/
theorem relayStream_encoded (st : RelayState) :
    ∀ (frames : List (List Nat)) (s : List Nat), encodeFrames frames = .ok s →
      relayStream st s frames.length = .ok ([], frames.flatMap fun f => fanout st f) := by
  intro frames
  induction frames with
  | nil =>
    intro s h
    simp only [encodeFrames, Except.ok.injEq] at h
    subst h
    rfl
  | cons f fs ih =>
    intro s h
    simp only [encodeFrames] at h
    cases hw : channelWrite f with
    | error e => rw [hw] at h; simp at h
    | ok u =>
      rw [hw] at h
      cases hrest : encodeFrames fs with
      | error e => rw [hrest] at h; simp at h
      | ok rest =>
        rw [hrest] at h
        simp only [Except.ok.injEq] at h
        obtain ⟨hu, _⟩ := channelWrite_ok f u hw
        subst hu
        subst h
        show relayStream st ((f.length :: f) ++ rest) (fs.length + 1) = _
        simp only [relayStream, handle_pipein_stream_frame, ih rest hrest,
          List.flatMap_cons]

theorem sentTo_append (c : Nat) (e1 e2 : List Effect) :
    sentTo c (e1 ++ e2) = sentTo c e1 ++ sentTo c e2 := by
  simp [sentTo, List.filterMap_append]

theorem sentTo_cons_send (c j : Nat) (d : List Nat) (effs : List Effect) :
    sentTo c (Effect.sendClient j d :: effs) =
      if j = c then d :: sentTo c effs else sentTo c effs := by
  by_cases h : j = c <;> simp [sentTo, List.filterMap_cons, h]

/-- Delivery seen by client c of a send trace over distinct indices. -/
theorem sentTo_map (c : Nat) (data : List Nat) :
    ∀ js : List Nat, js.Nodup →
      sentTo c (js.map fun i => Effect.sendClient i data) =
        if c ∈ js then [data] else [] := by
  intro js
  induction js with
  | nil => intro _; simp [sentTo]
  | cons j js ih =>
    intro hn
    have hn2 := List.nodup_cons.mp hn
    rw [List.map_cons, sentTo_cons_send, ih hn2.2]
    by_cases hjc : j = c
    · subst hjc
      rw [if_pos rfl, if_neg hn2.1, if_pos (List.mem_cons_self j js)]
    · rw [if_neg hjc]
      by_cases hcjs : c ∈ js
      · rw [if_pos hcjs, if_pos (List.mem_cons_of_mem j hcjs)]
      · rw [if_neg hcjs, if_neg (fun hmem => by
          rcases List.mem_cons.mp hmem with h1 | h2
          · exact hjc h1.symm
          · exact hcjs h2)]

/-- What one fan-out delivers to client c. -/
theorem sentTo_fanout (st : RelayState) (f : List Nat) (c : Nat) :
    sentTo c (fanout st f) =
      if c < st.clients.length ∧ st.authorized.getD c false = true then [f] else [] := by
  unfold fanout
  rw [fanoutTrace_noFail]
  rw [sentTo_map c f _ (List.Nodup.filter _ (List.nodup_range _))]
  by_cases h : c < st.clients.length ∧ st.authorized.getD c false = true
  · rw [if_pos (List.mem_filter.mpr ⟨List.mem_range.mpr h.1, h.2⟩), if_pos h]
  · rw [if_neg (fun hmem => h ⟨List.mem_range.mp (List.mem_filter.mp hmem).1,
      (List.mem_filter.mp hmem).2⟩), if_neg h]

theorem sentTo_bind_fanout (st : RelayState) (c : Nat) :
    ∀ frames : List (List Nat),
      sentTo c (frames.flatMap fun f => fanout st f) =
        if c < st.clients.length ∧ st.authorized.getD c false = true then frames
        else [] := by
  intro frames
  induction frames with
  | nil => simp [sentTo]
  | cons f fs ih =>
    rw [List.flatMap_cons, sentTo_append, sentTo_fanout, ih]
    by_cases h : c < st.clients.length ∧ st.authorized.getD c false = true
    · rw [if_pos h, if_pos h, if_pos h]
      rfl
    · rw [if_neg h, if_neg h, if_neg h]
      rfl

/-- C2: relaying an encoded sequence of N device frames fans each one out to
exactly the sessions whose flag is true, in active-set (accept) order, writes
nothing to unauthorized sessions, and every continuously-authorized client
receives all N payloads in device order. -/
theorem frame_fanout_complete (st : RelayState) (frames : List (List Nat))
    (s : List Nat) (c : Nat) (henc : encodeFrames frames = .ok s) :
    relayStream st s frames.length = .ok ([], frames.flatMap fun f => fanout st f) ∧
    (∀ f, fanout st f =
      ((List.range st.clients.length).filter fun i => st.authorized.getD i false).map
        fun i => Effect.sendClient i f) ∧
    sentTo c (frames.flatMap fun f => fanout st f) =
      if c < st.clients.length ∧ st.authorized.getD c false = true then frames
      else [] := by
  refine ⟨relayStream_encoded st frames s henc, fun f => ?_,
    sentTo_bind_fanout st c frames⟩
  unfold fanout
  rw [fanoutTrace_noFail]

theorem frame_fanout_complete_witness :
    encodeFrames [[170], [187, 204]] = .ok [1, 170, 2, 187, 204] ∧
      relayStream ⟨[5, 6, 7], [true, false, true]⟩ [1, 170, 2, 187, 204] 2 =
        .ok ([], [Effect.sendClient 0 [170], Effect.sendClient 2 [170],
          Effect.sendClient 0 [187, 204], Effect.sendClient 2 [187, 204]]) ∧
      sentTo 2 [Effect.sendClient 0 [170], Effect.sendClient 2 [170],
          Effect.sendClient 0 [187, 204], Effect.sendClient 2 [187, 204]] =
        [[170], [187, 204]] :=
  have h := frame_fanout_complete ⟨[5, 6, 7], [true, false, true]⟩ [[170], [187, 204]]
    [1, 170, 2, 187, 204] 2 rfl
  ⟨rfl, h.1, h.2.2.trans (if_pos (by decide))⟩

/-! ### Helper lemmas about parallel lists -/

theorem zip_append_pair {α β : Type} : ∀ (l : List α) (m : List β), l.length = m.length →
    ∀ (a : α) (b : β), (l ++ [a]).zip (m ++ [b]) = l.zip m ++ [(a, b)]
  | [], [], _, _, _ => rfl
  | [], _ :: _, h, _, _ => by simp at h
  | _ :: _, [], h, _, _ => by simp at h
  | x :: l, y :: m, h, a, b => by
    simp only [List.cons_append, List.zip_cons_cons,
      zip_append_pair l m (by simpa using h) a b]

theorem zip_eraseIdx_pair {α β : Type} : ∀ (l : List α) (m : List β) (i : Nat),
    l.length = m.length →
    (l.eraseIdx i).zip (m.eraseIdx i) = (l.zip m).eraseIdx i
  | [], [], _, _ => rfl
  | [], _ :: _, _, h => by simp at h
  | _ :: _, [], _, h => by simp at h
  | x :: l, y :: m, 0, h => rfl
  | x :: l, y :: m, i + 1, h => by
    show (x, y) :: (l.eraseIdx i).zip (m.eraseIdx i) =
      (x, y) :: (l.zip m).eraseIdx i
    rw [zip_eraseIdx_pair l m i (by simpa using h)]

theorem eraseIdx_length_pair {α β : Type} : ∀ (l : List α) (m : List β) (i : Nat),
    l.length = m.length → (l.eraseIdx i).length = (m.eraseIdx i).length
  | [], [], _, _ => rfl
  | [], _ :: _, _, h => by simp at h
  | _ :: _, [], _, h => by simp at h
  | x :: l, y :: m, 0, h => by simpa using h
  | x :: l, y :: m, i + 1, h => by
    show (l.eraseIdx i).length + 1 = (m.eraseIdx i).length + 1
    rw [eraseIdx_length_pair l m i (by simpa using h)]

theorem mem_zip_set_true {α : Type} : ∀ (l : List α) (m : List Bool) (i : Nat) (c : α),
    (c, true) ∈ l.zip m → (c, true) ∈ l.zip (m.set i true)
  | [], _, _, _, h => by simp at h
  | _ :: _, [], _, _, h => by simp at h
  | x :: l, y :: m, 0, c, h => by
    rcases List.mem_cons.mp h with h1 | h2
    · injection h1 with hx hy
      subst hx
      exact List.mem_cons_self _ _
    · exact List.mem_cons_of_mem _ h2
  | x :: l, y :: m, i + 1, c, h => by
    rcases List.mem_cons.mp h with h1 | h2
    · exact List.mem_cons.mpr (Or.inl h1)
    · exact List.mem_cons_of_mem _ (mem_zip_set_true l m i c h2)

theorem mem_zip_eraseIdx {α β : Type} : ∀ (l : List α) (m : List β) (i : Nat) (c : α)
    (v : β), l.Nodup → (c, v) ∈ l.zip m → c ∈ l.eraseIdx i →
    (c, v) ∈ (l.eraseIdx i).zip (m.eraseIdx i)
  | [], _, _, _, _, _, h, _ => by simp at h
  | _ :: _, [], _, _, _, _, h, _ => by simp at h
  | x :: l, y :: m, 0, c, v, hn, h, hc => by
    rcases List.mem_cons.mp h with h1 | h2
    · injection h1 with hx hv
      subst hx
      exact absurd hc (List.nodup_cons.mp hn).1
    · exact h2
  | x :: l, y :: m, i + 1, c, v, hn, h, hc => by
    rcases List.mem_cons.mp h with h1 | h2
    · exact List.mem_cons.mpr (Or.inl h1)
    · rcases List.mem_cons.mp hc with hcx | hcl
      · subst hcx
        exact absurd (List.of_mem_zip h2).1 (List.nodup_cons.mp hn).1
      · exact List.mem_cons.mpr (Or.inr
          (mem_zip_eraseIdx l m i c v (List.nodup_cons.mp hn).2 h2 hcl))

/-- State characterization of any successful `handle_client` call: the client
list is untouched, the flag list is untouched or gains true at index i (and
only when it was false there), and a False return leaves the state as it
was (the caller then removes the entry). -/
theorem handle_client_state (cfg : Config) (st : RelayState) (i : Nat) (r : RecvResult)
    (st1 : RelayState) (keep : Bool) (effs : List Effect)
    (h : handle_client cfg st i r = .ok (st1, keep, effs)) :
    st1.clients = st.clients ∧
    (st1.authorized = st.authorized ∨
      ∃ ha : i < st.authorized.length,
        st1.authorized = st.authorized.set i true ∧
        st.authorized.get ⟨i, ha⟩ = false) ∧
    (keep = false → st1 = st) := by
  by_cases hc : i < st.clients.length
  swap
  · simp [handle_client, hc] at h
  cases r with
  | err => rw [handle_client_err cfg st i hc] at h; simp at h
  | data data =>
    rcases eq_or_ne data [] with hdata | hdata
    · subst hdata
      rw [handle_client_closed cfg st i hc] at h
      simp only [Except.ok.injEq, Prod.mk.injEq] at h
      obtain ⟨h1, _, _⟩ := h
      rw [← h1]
      exact ⟨rfl, Or.inl rfl, fun _ => rfl⟩
    · by_cases ha : i < st.authorized.length
      swap
      · simp [handle_client, hc, ha, hdata] at h
      by_cases hflag : st.authorized.get ⟨i, ha⟩ = true
      · rw [handle_client_authorized cfg st i data hc ha hflag hdata] at h
        simp only [Except.ok.injEq, Prod.mk.injEq] at h
        obtain ⟨h1, h2, _⟩ := h
        rw [← h1]
        exact ⟨rfl, Or.inl rfl, fun hk => absurd (h2.trans hk) (by decide)⟩
      · have hflag2 : st.authorized.get ⟨i, ha⟩ = false := by
          cases hb : st.authorized.get ⟨i, ha⟩
          · rfl
          · exact absurd hb hflag
        rw [handle_client_unauth cfg st i data hc ha hflag2 hdata] at h
        by_cases h4 : data.length = 4 ∧
            be16 (data.getD 0 0) (data.getD 1 0) = cfg.vendor_id ∧
            be16 (data.getD 2 0) (data.getD 3 0) = cfg.product_id
        · rw [if_pos h4] at h
          simp only [Except.ok.injEq, Prod.mk.injEq] at h
          obtain ⟨h1, h2, _⟩ := h
          rw [← h1]
          exact ⟨rfl, Or.inr ⟨ha, rfl, hflag2⟩,
            fun hk => absurd (h2.trans hk) (by decide)⟩
        · rw [if_neg h4] at h
          simp only [Except.ok.injEq, Prod.mk.injEq] at h
          obtain ⟨h1, _, _⟩ := h
          rw [← h1]
          exact ⟨rfl, Or.inl rfl, fun _ => rfl⟩

/-! ### C9: index alignment of the parallel session lists -/

/-- C9: the client list and the flag list stay index-aligned across every
operation of the relay loop: accept appends one socket and one false flag,
removal deletes the same index from both lists, and `handle_client` never
touches the client list and at most sets the flag at its own index (and only
from false to true), so both lists always have equal length and
`authorized[i]` stays the authorization state of `clients[i]`. -/
theorem index_alignment (cfg : Config) (st : RelayState) (cNew i : Nat)
    (hlen : st.clients.length = st.authorized.length) :
    ((acceptClient st cNew).clients.length = (acceptClient st cNew).authorized.length ∧
      (acceptClient st cNew).clients.zip (acceptClient st cNew).authorized =
        st.clients.zip st.authorized ++ [(cNew, false)]) ∧
    ((removeClient st i).clients.length = (removeClient st i).authorized.length ∧
      (removeClient st i).clients.zip (removeClient st i).authorized =
        (st.clients.zip st.authorized).eraseIdx i) ∧
    (∀ r st1 keep effs, handle_client cfg st i r = .ok (st1, keep, effs) →
      st1.clients = st.clients ∧ st1.clients.length = st1.authorized.length ∧
      (st1.authorized = st.authorized ∨
        ∃ ha : i < st.authorized.length,
          st1.authorized = st.authorized.set i true ∧
          st.authorized.get ⟨i, ha⟩ = false)) := by
  refine ⟨⟨?_, ?_⟩, ⟨?_, ?_⟩, ?_⟩
  · simp [acceptClient, hlen]
  · exact zip_append_pair st.clients st.authorized hlen cNew false
  · exact eraseIdx_length_pair st.clients st.authorized i hlen
  · exact zip_eraseIdx_pair st.clients st.authorized i hlen
  · intro r st1 keep effs h
    obtain ⟨h1, h2, _⟩ := handle_client_state cfg st i r st1 keep effs h
    refine ⟨h1, ?_, h2⟩
    rcases h2 with h2 | ⟨ha, h2, _⟩
    · rw [h1, h2, hlen]
    · rw [h1, h2, List.length_set, hlen]

theorem index_alignment_witness :
    ((acceptClient ⟨[5], [false]⟩ 9).clients.length =
        (acceptClient ⟨[5], [false]⟩ 9).authorized.length ∧
      (acceptClient ⟨[5], [false]⟩ 9).clients.zip
          (acceptClient ⟨[5], [false]⟩ 9).authorized =
        ([5] : List Nat).zip [false] ++ [(9, false)]) ∧
    ((removeClient ⟨[5], [false]⟩ 0).clients.length =
        (removeClient ⟨[5], [false]⟩ 0).authorized.length ∧
      (removeClient ⟨[5], [false]⟩ 0).clients.zip
          (removeClient ⟨[5], [false]⟩ 0).authorized =
        (([5] : List Nat).zip [false]).eraseIdx 0) ∧
    (∀ r st1 keep effs,
      handle_client ⟨0x1234, 0x5678⟩ ⟨[5], [false]⟩ 0 r = .ok (st1, keep, effs) →
      st1.clients = ([5] : List Nat) ∧ st1.clients.length = st1.authorized.length ∧
      (st1.authorized = ([false] : List Bool) ∨
        ∃ ha : (0 : Nat) < ([false] : List Bool).length,
          st1.authorized = ([false] : List Bool).set 0 true ∧
          ([false] : List Bool).get ⟨0, ha⟩ = false)) :=
  index_alignment ⟨0x1234, 0x5678⟩ ⟨[5], [false]⟩ 9 0 rfl

/-! ### C6: authorization is monotone over a session's lifetime -/

/-- One well-formed main-loop dispatch preserves the session-list invariants
and the authorization of any surviving session. -/
theorem step_session_invariants (cfg : Config) (st st1 : RelayState) (ev : LoopEvent)
    (used : List Nat) (c : Nat)
    (hwf : wfEventU used ev = true) (hsub : ∀ x ∈ st.clients, x ∈ used)
    (hlen : st.clients.length = st.authorized.length) (hnodup : st.clients.Nodup)
    (hcu : c ∈ used) (hstep : stepOk cfg st ev = .ok st1)
    (hP : (c, true) ∈ st.clients.zip st.authorized ∨ c ∉ st.clients) :
    (∀ x ∈ st1.clients, x ∈ usedAfter used ev) ∧
    st1.clients.length = st1.authorized.length ∧
    st1.clients.Nodup ∧
    c ∈ usedAfter used ev ∧
    ((c, true) ∈ st1.clients.zip st1.authorized ∨ c ∉ st1.clients) := by
  cases ev with
  | accept cn =>
    simp only [stepOk, Except.ok.injEq] at hstep
    subst hstep
    have hfresh : cn ∉ used := by simpa [wfEventU] using hwf
    refine ⟨?_, ?_, ?_, ?_, ?_⟩
    · intro x hx
      rcases List.mem_append.mp hx with hx | hx
      · exact List.mem_append_left _ (hsub x hx)
      · exact List.mem_append_right _ hx
    · simp [acceptClient, hlen]
    · rw [show (acceptClient st cn).clients = st.clients ++ [cn] from rfl,
        List.nodup_append]
      refine ⟨hnodup, List.nodup_singleton _, ?_⟩
      intro x hx hx2
      rw [List.mem_singleton] at hx2
      subst hx2
      exact hfresh (hsub x hx)
    · exact List.mem_append_left _ hcu
    · rcases hP with hP | hP
      · left
        rw [show (acceptClient st cn).clients = st.clients ++ [cn] from rfl,
          show (acceptClient st cn).authorized = st.authorized ++ [false] from rfl,
          zip_append_pair st.clients st.authorized hlen cn false]
        exact List.mem_append_left _ hP
      · right
        intro hmem
        rcases List.mem_append.mp hmem with hm | hm
        · exact hP hm
        · rw [List.mem_singleton] at hm
          subst hm
          exact hfresh hcu
  | pipein d =>
    simp only [stepOk, Except.ok.injEq] at hstep
    subst hstep
    exact ⟨hsub, hlen, hnodup, hcu, hP⟩
  | clientMsg i r =>
    simp only [stepOk] at hstep
    cases hh : handle_client cfg st i r with
    | error e => rw [hh] at hstep; simp at hstep
    | ok res =>
      obtain ⟨st2, keep, effs⟩ := res
      rw [hh] at hstep
      simp only [Except.ok.injEq] at hstep
      obtain ⟨hcl, hauth, hkeep⟩ := handle_client_state cfg st i r st2 keep effs hh
      cases keep with
      | true =>
        have hst1 : st1 = st2 := by rw [← hstep]; simp
        subst hst1
        refine ⟨?_, ?_, ?_, hcu, ?_⟩
        · rw [hcl]; exact hsub
        · rcases hauth with h2 | ⟨ha, h2, _⟩
          · rw [hcl, h2, hlen]
          · rw [hcl, h2, List.length_set, hlen]
        · rw [hcl]; exact hnodup
        · rcases hP with hP | hP
          · left
            rcases hauth with h2 | ⟨ha, h2, _⟩
            · rw [hcl, h2]; exact hP
            · rw [hcl, h2]
              exact mem_zip_set_true st.clients st.authorized i c hP
          · right
            rw [hcl]
            exact hP
      | false =>
        have hst2 : st2 = st := hkeep rfl
        subst hst2
        have hst1 : st1 = removeClient st2 i := by rw [← hstep]; simp
        subst hst1
        refine ⟨?_, eraseIdx_length_pair st2.clients st2.authorized i hlen, ?_, hcu, ?_⟩
        · intro x hx
          exact hsub x ((List.eraseIdx_sublist st2.clients i).subset hx)
        · exact List.Nodup.sublist (List.eraseIdx_sublist st2.clients i) hnodup
        · by_cases hc2 : c ∈ (removeClient st2 i).clients
          · rcases hP with hP | hP
            · exact Or.inl (mem_zip_eraseIdx st2.clients st2.authorized i c true
                hnodup hP hc2)
            · exact absurd ((List.eraseIdx_sublist st2.clients i).subset hc2) hP
          · exact Or.inr hc2

/-- Invariant preservation along a whole well-formed trace. -/
theorem run_session_invariants (cfg : Config) (c : Nat) :
    ∀ (evs : List LoopEvent) (used : List Nat) (st st1 : RelayState),
      wfTraceU used evs = true →
      (∀ x ∈ st.clients, x ∈ used) →
      st.clients.length = st.authorized.length →
      st.clients.Nodup →
      c ∈ used →
      runEvents cfg st evs = .ok st1 →
      ((c, true) ∈ st.clients.zip st.authorized ∨ c ∉ st.clients) →
      ((c, true) ∈ st1.clients.zip st1.authorized ∨ c ∉ st1.clients) := by
  intro evs
  induction evs with
  | nil =>
    intro used st st1 _ _ _ _ _ hrun hP
    simp only [runEvents, Except.ok.injEq] at hrun
    subst hrun
    exact hP
  | cons ev evs ih =>
    intro used st st1 hwf hsub hlen hnodup hcu hrun hP
    simp only [wfTraceU, Bool.and_eq_true] at hwf
    simp only [runEvents] at hrun
    cases hstep : stepOk cfg st ev with
    | error e => rw [hstep] at hrun; simp at hrun
    | ok st2 =>
      rw [hstep] at hrun
      obtain ⟨hs1, hs2, hs3, hs4, hs5⟩ :=
        step_session_invariants cfg st st2 ev used c hwf.1 hsub hlen hnodup hcu
          hstep hP
      exact ih (usedAfter used ev) st2 st1 hwf.2 hs1 hs2 hs3 hs4 hrun hs5

/-- C6: along any well-formed trace of main-loop dispatches, a session that
is authorized stays authorized for as long as its connection survives (the
flag never reverts), and a message of any content from an already-authorized
session leaves the whole session state unchanged — so the false→true
transition can happen at most once per connection. -/
theorem authorization_monotone (cfg : Config) (st st1 : RelayState)
    (evs : List LoopEvent) (c : Nat)
    (hwf : wfTraceU st.clients evs = true)
    (hlen : st.clients.length = st.authorized.length)
    (hnodup : st.clients.Nodup)
    (hrun : runEvents cfg st evs = .ok st1)
    (hmem : (c, true) ∈ st.clients.zip st.authorized)
    (halive : c ∈ st1.clients) :
    (c, true) ∈ st1.clients.zip st1.authorized ∧
    (∀ (stx : RelayState) (i : Nat) (d : List Nat) (ha : i < stx.authorized.length),
      stx.authorized.get ⟨i, ha⟩ = true → i < stx.clients.length → d ≠ [] →
      handle_client cfg stx i (.data d) = .ok (stx, true, [.usbSend d])) := by
  constructor
  · rcases run_session_invariants cfg c evs st.clients st st1 hwf (fun x h => h)
      hlen hnodup (List.of_mem_zip hmem).1 hrun (Or.inl hmem) with h | h
    · exact h
    · exact absurd halive h
  · intro stx i d ha hflag hc hne
    exact handle_client_authorized cfg stx i d hc ha hflag hne

theorem authorization_monotone_witness :
    runEvents ⟨0x1234, 0x5678⟩ ⟨[5], [true]⟩
        [.accept 9, .clientMsg 0 (.data [1, 2, 3]), .pipein [170],
         .clientMsg 1 (.data [0, 0, 0, 0])] = .ok ⟨[5], [true]⟩ ∧
      (5, true) ∈ ([5] : List Nat).zip [true] :=
  have h := authorization_monotone ⟨0x1234, 0x5678⟩ ⟨[5], [true]⟩ ⟨[5], [true]⟩
    [.accept 9, .clientMsg 0 (.data [1, 2, 3]), .pipein [170],
     .clientMsg 1 (.data [0, 0, 0, 0])]
    5 (by decide) rfl (by decide) rfl (by decide) (by decide)
  ⟨rfl, h.1⟩
